import Mathlib

/-!
# Verification of the jira-mcp rich-document renderer

Shallow embedding of the document-rendering core of `src/server.py`:

* `extract_comment_text` (lines 77-100) and its recursive helper
  `_process_content_nodes` (lines 103-195), and
* `get_description_text` (lines 38-73).

JSON-decoded Python values are modelled by the inductive type `PyVal`.
All fallible Python operations (attribute access such as `.get` on a
non-dict, iteration over a non-iterable, `in` on a non-container,
subscripting, string multiplication by a non-int, `str.join` over
non-strings) are modelled in the `Except PyErr` monad, so a raised
Python exception corresponds to an `.error` result.

The recursion of `_process_content_nodes` descends through dictionary
lookups (`node.get("content", [])`), which is not structural, so the
recursive core is defined with an explicit fuel parameter (structural
in the fuel) plus wrappers that supply fuel `2 * pvSize v + 1`, which
is proved sufficient: `fuel_irrelevance` shows the result does not
depend on the fuel once it exceeds twice the size of the input, so the
wrappers compute exactly the Python functions.  Fuel exhaustion
surfaces as `PyErr.recursionError` (the analogue of CPython's own
`RecursionError` guard) and is never returned by the wrappers.
-/

set_option autoImplicit false

namespace JiraMcp

mutual
/-- A JSON-decoded Python value: `None`, `bool`, `int`, `str`, `list`
or `dict` with string keys (the shapes produced by `response.json()`,
which is what the renderer receives).  Python `float` does not occur in
any claim and is left out of the model.  Lists and dict entry lists are
the mutually inductive types `PyList` and `PyEntries` (rather than
nested `List`s) so that every recursive function on values can be
compiled by structural recursion and computed by `rfl`/`decide`. -/
inductive PyVal where
  | none
  | bool (b : Bool)
  | int (n : Int)
  | str (s : String)
  | list (xs : PyList)
  | dict (es : PyEntries)

/-- A Python list of JSON-decoded values. -/
inductive PyList where
  | nil
  | cons (x : PyVal) (xs : PyList)

/-- The entries of a Python dict with string keys, in insertion order
(Python dicts preserve insertion order; keys are unique). -/
inductive PyEntries where
  | nil
  | econs (k : String) (v : PyVal) (es : PyEntries)
end

/-- The Python exception kinds the renderer can raise.
`recursionError` is the fuel-exhaustion artifact of the embedding; the
wrappers supply sufficient fuel, so it is never returned by them. -/
inductive PyErr where
  | attributeError
  | typeError
  | keyError
  | recursionError
deriving DecidableEq, Repr

/-- Convert a Lean list of values into a `PyList` (used to write down
concrete documents). -/
def ofL : List PyVal → PyList
  | [] => .nil
  | x :: xs => .cons x (ofL xs)

/-- Convert a Lean list of pairs into `PyEntries`. -/
def ofE : List (String × PyVal) → PyEntries
  | [] => .nil
  | (k, v) :: es => .econs k v (ofE es)

/-- A Python list literal. -/
def PyVal.ofList (xs : List PyVal) : PyVal := .list (ofL xs)

/-- A Python dict literal. -/
def PyVal.ofDict (es : List (String × PyVal)) : PyVal := .dict (ofE es)

mutual
/-- Size of a value, used as the fuel measure of the renderer. -/
def pvSize : PyVal → Nat
  | .none => 1
  | .bool _ => 1
  | .int _ => 1
  | .str _ => 1
  | .list xs => 1 + pvSizeL xs
  | .dict es => 1 + pvSizeE es

/-- Size of a list of values. -/
def pvSizeL : PyList → Nat
  | .nil => 1
  | .cons x xs => 1 + pvSize x + pvSizeL xs

/-- Size of dict entries. -/
def pvSizeE : PyEntries → Nat
  | .nil => 1
  | .econs _ v es => 3 + pvSize v + pvSizeE es
end

/-- Is the list empty? -/
def PyList.isNil : PyList → Bool
  | .nil => true
  | .cons _ _ => false

/-- Are the dict entries empty? -/
def PyEntries.isNil : PyEntries → Bool
  | .nil => true
  | .econs _ _ _ => false

namespace PyVal

/-- Python `v == s` for a string literal `s`: true exactly when `v` is
that string (comparisons between different types are just `False`). -/
def eqStr (v : PyVal) (s : String) : Bool :=
  match v with
  | .str t => t = s
  | _ => false

/-- Python truthiness (`bool(v)`) for JSON-decoded values. -/
def pyTruthy : PyVal → Bool
  | .none => false
  | .bool b => b
  | .int n => decide (n ≠ 0)
  | .str s => decide (s ≠ "")
  | .list .nil => false
  | .list (.cons _ _) => true
  | .dict .nil => false
  | .dict (.econs _ _ _) => true

/-- First-match association lookup; Python dict keys are unique, so
this is exactly dict lookup on the JSON model. -/
def dlookup : PyEntries → String → Option PyVal
  | .nil, _ => Option.none
  | .econs k v es, key => if k = key then Option.some v else dlookup es key

/-- `d.get(k, default)`: only dicts have a `.get` method; every other
value raises `AttributeError`. -/
def pyGet (v : PyVal) (k : String) (default : PyVal) : Except PyErr PyVal :=
  match v with
  | .dict es => .ok ((dlookup es k).getD default)
  | _ => .error .attributeError

/-- The keys of dict entries, in order, as Python strings. -/
def keysE : PyEntries → List PyVal
  | .nil => []
  | .econs k _ es => .str k :: keysE es

/-- The elements of a `PyList` as a Lean list. -/
def toL : PyList → List PyVal
  | .nil => []
  | .cons x xs => x :: toL xs

/-- Python `for x in v`: lists yield their elements, strings their
one-character substrings, dicts their keys; other values raise
`TypeError` (not iterable). -/
def pyElems : PyVal → Except PyErr (List PyVal)
  | .list xs => .ok (toL xs)
  | .str s => .ok (s.data.map fun c => .str (String.mk [c]))
  | .dict es => .ok (keysE es)
  | _ => .error .typeError

/-- `charsPrefix needle hay`: is `needle` a prefix of `hay`? -/
def charsPrefix : List Char → List Char → Bool
  | [], _ => true
  | _ :: _, [] => false
  | a :: as, b :: bs => a = b && charsPrefix as bs

/-- `charsInfix needle hay`: does `needle` occur contiguously in `hay`?
(The substring test of Python `k in s` for strings.) -/
def charsInfix (needle : List Char) : List Char → Bool
  | [] => charsPrefix needle []
  | c :: rest => charsPrefix needle (c :: rest) || charsInfix needle rest

/-- Is some element of the list the string `k`?  (Python `k in list`
compares `k` with every element; comparisons with non-strings are
`False`.) -/
def anyEqStr : PyList → String → Bool
  | .nil, _ => false
  | .cons x xs, k => x.eqStr k || anyEqStr xs k

/-- Python `k in v` for a string `k`: key test on dicts, substring test
on strings, element test on lists; other values raise `TypeError`. -/
def pyContainsKey (v : PyVal) (k : String) : Except PyErr Bool :=
  match v with
  | .dict es => .ok (dlookup es k).isSome
  | .str s => .ok (charsInfix k.data s.data)
  | .list xs => .ok (anyEqStr xs k)
  | _ => .error .typeError

/-- Python `v[k]` for a string key `k`: dict lookup (`KeyError` when
missing); strings and lists are indexed by integers, so a string key
raises `TypeError`; other values are not subscriptable. -/
def pySubscript (v : PyVal) (k : String) : Except PyErr PyVal :=
  match v with
  | .dict es =>
    match dlookup es k with
    | Option.some x => .ok x
    | Option.none => .error .keyError
  | _ => .error .typeError

/-- Escape one character the way CPython `repr` escapes it inside a
string literal delimited by `quote`. -/
def reprEscapeChar (quote : Char) (c : Char) : String :=
  if c = Char.ofNat 92 then "\\\\"
  else if c = quote then "\\" ++ String.mk [quote]
  else if c = Char.ofNat 10 then "\\n"
  else if c = Char.ofNat 13 then "\\r"
  else if c = Char.ofNat 9 then "\\t"
  else String.mk [c]

/-- CPython `repr` of a string: single quotes by default, double quotes
when the string contains a single quote but no double quote; backslash,
the delimiter and common control characters are escaped.  (Escapes of
other non-printable characters are not modelled; no input in this
development contains them.) -/
def reprStr (s : String) : String :=
  let sq := Char.ofNat 39
  let dq := Char.ofNat 34
  let quote := if s.data.contains sq && !s.data.contains dq then dq else sq
  String.mk [quote] ++ String.join (s.data.map (reprEscapeChar quote)) ++ String.mk [quote]

mutual
/-- Python `repr(v)` for JSON-decoded values. -/
def pyRepr : PyVal → String
  | .none => "None"
  | .bool true => "True"
  | .bool false => "False"
  | .int n => toString n
  | .str s => reprStr s
  | .list xs => "[" ++ pyReprL xs ++ "]"
  | .dict es => "\x7b" ++ pyReprE es ++ "\x7d"

/-- Comma-separated `repr`s of list elements. -/
def pyReprL : PyList → String
  | .nil => ""
  | .cons x .nil => pyRepr x
  | .cons x xs => pyRepr x ++ ", " ++ pyReprL xs

/-- Comma-separated `'key': repr(value)` entries of a dict. -/
def pyReprE : PyEntries → String
  | .nil => ""
  | .econs k v .nil => reprStr k ++ ": " ++ pyRepr v
  | .econs k v es => reprStr k ++ ": " ++ pyRepr v ++ ", " ++ pyReprE es
end

/-- Python `str(v)`: the identity on strings, `repr` otherwise (which
agrees with `str` on `None`, booleans, ints, lists and dicts). -/
def pyStr : PyVal → String
  | .str s => s
  | v => pyRepr v

end PyVal

open PyVal

/-- Python `s * n` for a string `s` and a count of `n` copies. -/
def pyRepeat (s : String) : Nat → String
  | 0 => ""
  | n + 1 => s ++ pyRepeat s n

/-- Python `sep.join(parts)` on a list of strings. -/
def pyJoin (sep : String) : List String → String
  | [] => ""
  | [x] => x
  | x :: xs => x ++ sep ++ pyJoin sep xs

/-- The operand check of Python `"#" * level`: ints are accepted, bools
are ints (`True` is `1`), everything else raises
`TypeError: can't multiply sequence by non-int`. -/
def pyStrMulCount : PyVal → Except PyErr Int
  | .int n => .ok n
  | .bool b => .ok (if b then 1 else 0)
  | _ => .error .typeError

/-- One iteration of the mark loop of `_process_content_nodes`
(src/server.py lines 129-132): for a mark with `type == "link"` whose
`attrs` contains an `href` key, rebind `text` to
`f"{text} ({mark['attrs']['href']})"`. -/
def applyMark (text : PyVal) (mark : PyVal) : Except PyErr PyVal := do
  let ty ← pyGet mark "type" .none
  if ty.eqStr "link" then do
    let hasAttrs ← pyContainsKey mark "attrs"
    if hasAttrs then do
      let attrs ← pySubscript mark "attrs"
      let hasHref ← pyContainsKey attrs "href"
      if hasHref then do
        let href ← pySubscript attrs "href"
        return .str (pyStr text ++ " (" ++ pyStr href ++ ")")
      else return text
    else return text
  else return text

/-- The whole mark loop: fold `applyMark` over the marks in order. -/
def applyMarks (text : PyVal) : PyList → Except PyErr PyVal
  | .nil => .ok text
  | .cons m ms => do
    let t ← applyMark text m
    applyMarks t ms

/-- The `codeBlock` list comprehension
`[node.get("text", "") for node in node.get("content", [])]`. -/
def collectTexts : List PyVal → Except PyErr (List PyVal)
  | [] => .ok []
  | nd :: nds => do
    let t ← pyGet nd "text" (.str "")
    let ts ← collectTexts nds
    return t :: ts

/-- Python `sep.join(vals)` over arbitrary values: raises `TypeError`
unless every element is a string. -/
def pyJoinVals (sep : String) (vals : List PyVal) : Except PyErr String :=
  match allStrs vals with
  | Option.some ss => .ok (pyJoin sep ss)
  | Option.none => .error .typeError
where
  /-- Extract the underlying strings when every value is a `str`. -/
  allStrs : List PyVal → Option (List String)
    | [] => Option.some []
    | .str s :: vs => (allStrs vs).map (s :: ·)
    | _ :: _ => Option.none

/-- `pvSize` of a looked-up dict value is much smaller than the dict. -/
theorem dlookup_pvSize : ∀ {es : PyEntries} {k : String} {v : PyVal},
    dlookup es k = Option.some v → pvSize v + 4 ≤ pvSizeE es
  | .nil, k, v, h => by simp [dlookup] at h
  | .econs a b tl, k, v, h => by
    by_cases hk : a = k
    · simp [dlookup, hk] at h
      subst h
      have h1 : 1 ≤ pvSizeE tl := by
        cases tl
        · simp [pvSizeE]
        · simp [pvSizeE]; omega
      simp [pvSizeE]
      omega
    · simp only [dlookup, hk, if_false, if_neg hk] at h
      have := dlookup_pvSize h
      simp [pvSizeE]
      omega

/-- Every `PyList` has positive size. -/
theorem pvSizeL_pos (l : PyList) : 1 ≤ pvSizeL l := by
  cases l
  · simp [pvSizeL]
  · simp [pvSizeL]; omega

/-- The list prefix of the item at 0-based position `i`: the bullet
`"• "` for bullet lists, the 1-based ordinal `f"{i+1}. "` for ordered
lists (src/server.py lines 153 and 159). -/
def ordPrefix (ordered : Bool) (i : Nat) : String :=
  if ordered then toString (i + 1) ++ ". " else "• "

mutual

/-- Fueled version of `_process_content_nodes(nodes, indent_level,
list_prefix)` (src/server.py lines 103-195).  `if not nodes: return ""`
(lines 115-116) handles every falsy argument; a non-falsy list is
iterated and the per-node `result` entries are joined with `"\n"`
(line 194; the comprehension filter `r is not None and r != []` keeps
every entry, because each appended entry is a string, and in Python a
string is never `None` and never equals `[]`).  Iterating a non-empty
string or dict yields strings (characters resp. keys), so the loop
raises `AttributeError` at `node.get("type", "")` on its first element;
iterating any other truthy value raises `TypeError`. -/
def processNodesF : Nat → PyVal → Nat → String → Except PyErr String
  | 0, _, _, _ => .error .recursionError
  | f + 1, v, ind, pre =>
    if pyTruthy v then
      match v with
      | .list xs =>
        match nodeListF f xs ind pre with
        | .ok parts => .ok (pyJoin "\n" parts)
        | .error e => .error e
      | .str _ => .error .attributeError
      | .dict _ => .error .attributeError
      | _ => .error .typeError
    else .ok ""
termination_by structural f _ _ _ => f

/-- Fueled `for node in nodes` loop of `_process_content_nodes`
(src/server.py line 121): the concatenation of the `result` entries
contributed by each node, propagating the first raised exception. -/
def nodeListF : Nat → PyList → Nat → String → Except PyErr (List String)
  | 0, _, _, _ => .error .recursionError
  | f + 1, xs, ind, pre =>
    match xs with
    | .nil => .ok []
    | .cons x rest =>
      match nodeF f x ind pre with
      | .error e => .error e
      | .ok rs =>
        match nodeListF f rest ind pre with
        | .error e => .error e
        | .ok rest2 => .ok (rs ++ rest2)
termination_by structural f _ _ _ => f

/-- Fueled `result` entries contributed by one node in the loop body of
`_process_content_nodes` (src/server.py lines 122-191).  A non-dict
node raises `AttributeError` at `node.get("type", "")`.  Wherever the
source writes `node.get("content", [])` and then recurses or loops, an
absent `content` key yields `[]`, for which the recursion returns `""`
and a loop performs no iteration; those outcomes are returned directly
here so that the recursion only descends into actual subvalues. -/
def nodeF : Nat → PyVal → Nat → String → Except PyErr (List String)
  | 0, _, _, _ => .error .recursionError
  | f + 1, node, ind, pre =>
    match node with
    | .dict es =>
      let ty := (dlookup es "type").getD (.str "")
      let indent := pyRepeat "  " ind
      if ty.eqStr "text" then
        -- lines 125-133: text node; link marks appended via `applyMarks`
        let text := (dlookup es "text").getD (.str "")
        let marksV := (dlookup es "marks").getD .none
        if pyTruthy marksV then
          match marksV with
          | .list ms =>
            match applyMarks text ms with
            | .ok t2 => .ok [indent ++ pre ++ pyStr t2]
            | .error e => .error e
          -- a truthy (hence non-empty) string or dict iterates to
          -- strings, and `mark.get("type")` raises AttributeError on
          -- the first one
          | .str _ => .error .attributeError
          | .dict _ => .error .attributeError
          | _ => .error .typeError
        else .ok [indent ++ pre ++ pyStr text]
      else if ty.eqStr "paragraph" then
        -- lines 135-140: children at the same indent with empty list
        -- prefix; a blank line after the paragraph when it was non-empty
        match dlookup es "content" with
        | Option.some c =>
          match processNodesF f c ind "" with
          | .ok s => .ok (if s = "" then [] else [s, ""])
          | .error e => .error e
        | Option.none => .ok []
      else if ty.eqStr "heading" then
        -- lines 142-148: level from attrs (default 1), `"#" * level`,
        -- children at indent 0 with empty prefix, then a blank line;
        -- the heading line is prefixed with the ambient indent
        let attrs := (dlookup es "attrs").getD (.dict .nil)
        match pyGet attrs "level" (.int 1) with
        | .error e => .error e
        | .ok lvl =>
          match pyStrMulCount lvl with
          | .error e => .error e
          | .ok n =>
            let hm := pyRepeat "#" n.toNat ++ " "
            match dlookup es "content" with
            | Option.some c =>
              match processNodesF f c 0 "" with
              | .ok s => .ok [indent ++ hm ++ s, ""]
              | .error e => .error e
            | Option.none => .ok [indent ++ hm, ""]
      else if ty.eqStr "bulletList" then
        -- lines 150-154: every child item at `ind + 1` with prefix "• "
        match dlookup es "content" with
        | Option.some c =>
          match c with
          | .list items => listItemsF f items ind false 0
          | .str s => if s = "" then .ok [] else .error .attributeError
          | .dict fs => if fs.isNil then .ok [] else .error .attributeError
          | _ => .error .typeError
        | Option.none => .ok []
      else if ty.eqStr "orderedList" then
        -- lines 156-160: as bulletList but with prefix `f"{i+1}. "`
        match dlookup es "content" with
        | Option.some c =>
          match c with
          | .list items => listItemsF f items ind true 0
          | .str s => if s = "" then .ok [] else .error .attributeError
          | .dict fs => if fs.isNil then .ok [] else .error .attributeError
          | _ => .error .typeError
        | Option.none => .ok []
      else if ty.eqStr "listItem" then
        -- lines 162-166: each child wrapped in `[content]`, processed
        -- at the same indent and prefix.  Iterating a non-empty string
        -- or dict wraps strings, whose processing hits `node.get` and
        -- raises AttributeError (an empty one contributes nothing).
        match dlookup es "content" with
        | Option.some c =>
          match c with
          | .list cs => itemChildrenF f cs ind pre
          | .str s => if s = "" then .ok [] else .error .attributeError
          | .dict fs => if fs.isNil then .ok [] else .error .attributeError
          | _ => .error .typeError
        | Option.none => .ok []
      else if ty.eqStr "codeBlock" then
        -- lines 168-172: `"\n".join` of the children's `text` fields
        -- inside an indent-prefixed fence, then a blank line
        match dlookup es "content" with
        | Option.some c =>
          match pyElems c with
          | .error e => .error e
          | .ok elems =>
            match collectTexts elems with
            | .error e => .error e
            | .ok vals =>
              match pyJoinVals "\n" vals with
              | .error e => .error e
              | .ok code =>
                .ok [indent ++ "```\n" ++ code ++ "\n" ++ indent ++ "```", ""]
        | Option.none => .ok [indent ++ "```\n" ++ "\n" ++ indent ++ "```", ""]
      else if ty.eqStr "rule" then
        -- lines 174-177
        .ok [indent ++ "---", ""]
      else if ty.eqStr "mention" then
        -- lines 179-182
        let attrs := (dlookup es "attrs").getD (.dict .nil)
        match pyGet attrs "text" (.str "@unknown") with
        | .error e => .error e
        | .ok mt => .ok [indent ++ pre ++ pyStr mt]
      else if ty.eqStr "hardBreak" then
        -- lines 184-186
        .ok [""]
      else
        -- lines 188-191: `elif "content" in node`: recurse at the same
        -- indent and prefix; otherwise the node contributes nothing
        match dlookup es "content" with
        | Option.some c =>
          match processNodesF f c ind pre with
          | .ok s => .ok [s]
          | .error e => .error e
        | Option.none => .ok []
    | _ => .error .attributeError
termination_by structural f _ _ _ => f

/-- Fueled bulletList/orderedList item loops of `_process_content_nodes`
(src/server.py lines 152-154 and 158-160): every child of the list node
has its own `content` processed at `ind + 1` with the bullet prefix
`"• "` (`ordered = false`) or the 1-based ordinal prefix `f"{i+1}. "`
(`ordered = true`); the resulting string of every item (even an empty
one) is appended to `result`.  A non-dict item raises `AttributeError`
at `item.get("content", [])`. -/
def listItemsF : Nat → PyList → Nat → Bool → Nat → Except PyErr (List String)
  | 0, _, _, _, _ => .error .recursionError
  | f + 1, items, ind, ordered, i =>
    match items with
    | .nil => .ok []
    | .cons item rest =>
      match item with
      | .dict ies =>
        let pre2 := ordPrefix ordered i
        match dlookup ies "content" with
        | Option.some ic =>
          match processNodesF f ic (ind + 1) pre2 with
          | .error e => .error e
          | .ok s =>
            match listItemsF f rest ind ordered (i + 1) with
            | .error e => .error e
            | .ok ss => .ok (s :: ss)
        | Option.none =>
          -- `_process_content_nodes([], ...)` is `""`; the loop appends it
          match listItemsF f rest ind ordered (i + 1) with
          | .error e => .error e
          | .ok ss => .ok ("" :: ss)
      | _ => .error .attributeError
termination_by structural f _ _ _ _ => f

/-- Fueled listItem loop of `_process_content_nodes` (src/server.py
lines 164-166): each child is wrapped in a singleton list and processed
at the same indent and prefix; every resulting string is appended. -/
def itemChildrenF : Nat → PyList → Nat → String → Except PyErr (List String)
  | 0, _, _, _ => .error .recursionError
  | f + 1, cs, ind, pre =>
    match cs with
    | .nil => .ok []
    | .cons x rest =>
      match processNodesF f (.list (.cons x .nil)) ind pre with
      | .error e => .error e
      | .ok s =>
        match itemChildrenF f rest ind pre with
        | .error e => .error e
        | .ok ss => .ok (s :: ss)
termination_by structural f _ _ _ => f

end

/-- `_process_content_nodes` itself: the fueled core with fuel
`2 * pvSize v + 1`, which `fuel_irrelevance` proves sufficient. -/
def process_content_nodes (v : PyVal) (ind : Nat) (pre : String) :
    Except PyErr String :=
  processNodesF (2 * pvSize v + 1) v ind pre

/-- `extract_comment_text(comment_body)` (src/server.py lines 77-100):
`None` gives `""`, a string is returned unchanged, a dict with a
`content` key is rendered by `_process_content_nodes(body["content"])`,
and anything else is converted with `str`. -/
def extract_comment_text (v : PyVal) : Except PyErr String :=
  match v with
  | .none => .ok ""
  | .str s => .ok s
  | .dict es =>
    match dlookup es "content" with
    | Option.some c => process_content_nodes c 0 ""
    | Option.none => .ok (pyStr (.dict es))
  | other => .ok (pyStr other)

/-- The inner loop of the paragraph arm of `get_description_text`
(src/server.py lines 54-56): the raw `text` values of the children
whose `type` is `"text"`, in order. -/
def descParaTexts : List PyVal → Except PyErr (List PyVal)
  | [] => .ok []
  | tn :: tns => do
    let ty ← pyGet tn "type" .none
    if ty.eqStr "text" then do
      let t ← pyGet tn "text" (.str "")
      let rest ← descParaTexts tns
      return t :: rest
    else descParaTexts tns

/-- The innermost loop of the list arm of `get_description_text`
(src/server.py lines 62-64): `"• " + text_node.get("text", "")` for
every `text`-typed child.  The Python string concatenation raises
`TypeError` right away when the `text` value is not a string. -/
def descItemTexts : List PyVal → Except PyErr (List PyVal)
  | [] => .ok []
  | tn :: tns => do
    let ty ← pyGet tn "type" .none
    if ty.eqStr "text" then do
      let t ← pyGet tn "text" (.str "")
      match t with
      | .str s => do
        let rest ← descItemTexts tns
        return .str ("• " ++ s) :: rest
      | _ => .error .typeError
    else descItemTexts tns

/-- The `item_content` loop of `get_description_text` (src/server.py
lines 61-64): only `paragraph`-typed children contribute, via their
`text` children. -/
def descItemContents : List PyVal → Except PyErr (List PyVal)
  | [] => .ok []
  | ic :: ics => do
    let ty ← pyGet ic "type" .none
    if ty.eqStr "paragraph" then do
      let c ← pyGet ic "content" (.list .nil)
      let elems ← pyElems c
      let ts ← descItemTexts elems
      let rest ← descItemContents ics
      return ts ++ rest
    else descItemContents ics

/-- The `list_item` loop of `get_description_text` (src/server.py lines
59-64): every child of the list node contributes the texts of the
paragraphs directly inside it. -/
def descListItems : List PyVal → Except PyErr (List PyVal)
  | [] => .ok []
  | it :: its => do
    let c ← pyGet it "content" (.list .nil)
    let elems ← pyElems c
    let ts ← descItemContents elems
    let rest ← descListItems its
    return ts ++ rest

/-- The `content_item` loop of `get_description_text` (src/server.py
lines 51-64): top-level `paragraph` children contribute their direct
`text` children; top-level `bulletList`/`orderedList` children
contribute bullet-prefixed texts; every other child contributes
nothing. -/
def descTopItems : List PyVal → Except PyErr (List PyVal)
  | [] => .ok []
  | ci :: cis => do
    let ty ← pyGet ci "type" .none
    if ty.eqStr "paragraph" then do
      let c ← pyGet ci "content" (.list .nil)
      let elems ← pyElems c
      let ts ← descParaTexts elems
      let rest ← descTopItems cis
      return ts ++ rest
    else if ty.eqStr "bulletList" || ty.eqStr "orderedList" then do
      let c ← pyGet ci "content" (.list .nil)
      let elems ← pyElems c
      let ts ← descListItems elems
      let rest ← descTopItems cis
      return ts ++ rest
    else descTopItems cis

/-- `get_description_text(description)` (src/server.py lines 38-73):
`None` gives `""`, a string is returned unchanged, a dict with a
`content` key is mined for paragraph and list texts joined by
newlines, a dict with a `text` key (and no `content`) returns the raw
`text` value, and everything else is converted with `str`. -/
def get_description_text (v : PyVal) : Except PyErr PyVal :=
  match v with
  | .none => .ok (.str "")
  | .str s => .ok (.str s)
  | .dict es =>
    match dlookup es "content" with
    | Option.some c => do
      let elems ← pyElems c
      let parts ← descTopItems elems
      let out ← pyJoinVals "\n" parts
      return .str out
    | Option.none =>
      match dlookup es "text" with
      | Option.some t => .ok t
      | Option.none => .ok (.str (pyStr (.dict es)))
  | other => .ok (.str (pyStr other))

/-- The fueled renderer does not depend on the fuel, once the fuel
exceeds the size measure of the argument: all five components at once,
by strong induction on the first fuel. -/
theorem fuel_irrel : ∀ f : Nat,
    (∀ g v ind pre, 2 * pvSize v < f → 2 * pvSize v < g →
      processNodesF f v ind pre = processNodesF g v ind pre) ∧
    (∀ g xs ind pre, 2 * pvSizeL xs < f → 2 * pvSizeL xs < g →
      nodeListF f xs ind pre = nodeListF g xs ind pre) ∧
    (∀ g node ind pre, 2 * pvSize node < f → 2 * pvSize node < g →
      nodeF f node ind pre = nodeF g node ind pre) ∧
    (∀ g items ind ordered i, 2 * pvSizeL items < f → 2 * pvSizeL items < g →
      listItemsF f items ind ordered i = listItemsF g items ind ordered i) ∧
    (∀ g cs ind pre, 2 * pvSizeL cs + 5 < f → 2 * pvSizeL cs + 5 < g →
      itemChildrenF f cs ind pre = itemChildrenF g cs ind pre) := by
  intro f
  induction f using Nat.strong_induction_on with
  | _ f IH =>
  refine ⟨?_, ?_, ?_, ?_, ?_⟩
  · -- processNodesF
    intro g v ind pre hf hg
    obtain ⟨f0, rfl⟩ : ∃ f0, f = f0 + 1 := ⟨f - 1, by omega⟩
    obtain ⟨g0, rfl⟩ : ∃ g0, g = g0 + 1 := ⟨g - 1, by omega⟩
    cases v with
    | list xs =>
      have hx : 2 * pvSizeL xs < f0 := by simp [pvSize] at hf; omega
      have hy : 2 * pvSizeL xs < g0 := by simp [pvSize] at hg; omega
      simp only [processNodesF]
      rw [(IH f0 (by omega)).2.1 g0 xs ind pre hx hy]
    | none => rfl
    | bool b => simp only [processNodesF]
    | int n => simp only [processNodesF]
    | str sv => simp only [processNodesF]
    | dict es => simp only [processNodesF]
  · -- nodeListF
    intro g xs ind pre hf hg
    obtain ⟨f0, rfl⟩ : ∃ f0, f = f0 + 1 := ⟨f - 1, by omega⟩
    obtain ⟨g0, rfl⟩ : ∃ g0, g = g0 + 1 := ⟨g - 1, by omega⟩
    cases xs with
    | nil => rfl
    | cons x rest =>
      have h1 : 2 * pvSize x < f0 := by simp [pvSizeL] at hf; omega
      have h2 : 2 * pvSize x < g0 := by simp [pvSizeL] at hg; omega
      have h3 : 2 * pvSizeL rest < f0 := by simp [pvSizeL] at hf; omega
      have h4 : 2 * pvSizeL rest < g0 := by simp [pvSizeL] at hg; omega
      simp only [nodeListF]
      rw [(IH f0 (by omega)).2.2.1 g0 x ind pre h1 h2,
        (IH f0 (by omega)).2.1 g0 rest ind pre h3 h4]
  · -- nodeF
    intro g node ind pre hf hg
    obtain ⟨f0, rfl⟩ : ∃ f0, f = f0 + 1 := ⟨f - 1, by omega⟩
    obtain ⟨g0, rfl⟩ : ∃ g0, g = g0 + 1 := ⟨g - 1, by omega⟩
    cases node with
    | none => rfl
    | bool b => rfl
    | int n => rfl
    | str sv => rfl
    | list xs => rfl
    | dict es =>
      simp only [nodeF]
      cases hdl : dlookup es "content" with
      | none => rfl
      | some c =>
        have hc4 := dlookup_pvSize hdl
        simp only [pvSize] at hf hg
        dsimp only
        cases c with
        | list citems =>
          have hsz : pvSize (PyVal.list citems) = 1 + pvSizeL citems := rfl
          dsimp only
          rw [(IH f0 (by omega)).1 g0 (PyVal.list citems) ind "" (by omega) (by omega),
            (IH f0 (by omega)).1 g0 (PyVal.list citems) 0 "" (by omega) (by omega),
            (IH f0 (by omega)).1 g0 (PyVal.list citems) ind pre (by omega) (by omega),
            (IH f0 (by omega)).2.2.2.1 g0 citems ind false 0 (by omega) (by omega),
            (IH f0 (by omega)).2.2.2.1 g0 citems ind true 0 (by omega) (by omega),
            (IH f0 (by omega)).2.2.2.2 g0 citems ind pre (by omega) (by omega)]
        | none =>
          have hsz : pvSize PyVal.none = 1 := rfl
          dsimp only
          rw [(IH f0 (by omega)).1 g0 PyVal.none ind "" (by omega) (by omega),
            (IH f0 (by omega)).1 g0 PyVal.none 0 "" (by omega) (by omega),
            (IH f0 (by omega)).1 g0 PyVal.none ind pre (by omega) (by omega)]
        | bool b =>
          have hsz : pvSize (PyVal.bool b) = 1 := rfl
          dsimp only
          rw [(IH f0 (by omega)).1 g0 (PyVal.bool b) ind "" (by omega) (by omega),
            (IH f0 (by omega)).1 g0 (PyVal.bool b) 0 "" (by omega) (by omega),
            (IH f0 (by omega)).1 g0 (PyVal.bool b) ind pre (by omega) (by omega)]
        | int n =>
          have hsz : pvSize (PyVal.int n) = 1 := rfl
          dsimp only
          rw [(IH f0 (by omega)).1 g0 (PyVal.int n) ind "" (by omega) (by omega),
            (IH f0 (by omega)).1 g0 (PyVal.int n) 0 "" (by omega) (by omega),
            (IH f0 (by omega)).1 g0 (PyVal.int n) ind pre (by omega) (by omega)]
        | str sv =>
          have hsz : pvSize (PyVal.str sv) = 1 := rfl
          dsimp only
          rw [(IH f0 (by omega)).1 g0 (PyVal.str sv) ind "" (by omega) (by omega),
            (IH f0 (by omega)).1 g0 (PyVal.str sv) 0 "" (by omega) (by omega),
            (IH f0 (by omega)).1 g0 (PyVal.str sv) ind pre (by omega) (by omega)]
        | dict ces =>
          have hsz : pvSize (PyVal.dict ces) = 1 + pvSizeE ces := rfl
          dsimp only
          rw [(IH f0 (by omega)).1 g0 (PyVal.dict ces) ind "" (by omega) (by omega),
            (IH f0 (by omega)).1 g0 (PyVal.dict ces) 0 "" (by omega) (by omega),
            (IH f0 (by omega)).1 g0 (PyVal.dict ces) ind pre (by omega) (by omega)]
  · -- listItemsF
    intro g items ind ordered i hf hg
    obtain ⟨f0, rfl⟩ : ∃ f0, f = f0 + 1 := ⟨f - 1, by omega⟩
    obtain ⟨g0, rfl⟩ : ∃ g0, g = g0 + 1 := ⟨g - 1, by omega⟩
    cases items with
    | nil => rfl
    | cons item rest =>
      have hrest1 : 2 * pvSizeL rest < f0 := by simp [pvSizeL] at hf; omega
      have hrest2 : 2 * pvSizeL rest < g0 := by simp [pvSizeL] at hg; omega
      cases item with
      | dict ies =>
        simp only [listItemsF]
        cases hdl : dlookup ies "content" with
        | none =>
          rw [(IH f0 (by omega)).2.2.2.1 g0 rest ind ordered (i + 1) hrest1 hrest2]
        | some ic =>
          have hc4 := dlookup_pvSize hdl
          simp only [pvSizeL, pvSize] at hf hg
          dsimp only
          rw [(IH f0 (by omega)).1 g0 ic (ind + 1) (ordPrefix ordered i)
              (by omega) (by omega),
            (IH f0 (by omega)).2.2.2.1 g0 rest ind ordered (i + 1) (by omega) (by omega)]
      | none => rfl
      | bool b => rfl
      | int n => rfl
      | str sv => rfl
      | list xs => rfl
  · -- itemChildrenF
    intro g cs ind pre hf hg
    obtain ⟨f0, rfl⟩ : ∃ f0, f = f0 + 1 := ⟨f - 1, by omega⟩
    obtain ⟨g0, rfl⟩ : ∃ g0, g = g0 + 1 := ⟨g - 1, by omega⟩
    cases cs with
    | nil => rfl
    | cons x rest =>
      have h1 : 2 * pvSize (PyVal.list (PyList.cons x PyList.nil)) < f0 := by
        simp [pvSize, pvSizeL] at hf ⊢; omega
      have h2 : 2 * pvSize (PyVal.list (PyList.cons x PyList.nil)) < g0 := by
        simp [pvSize, pvSizeL] at hg ⊢; omega
      have h3 : 2 * pvSizeL rest + 5 < f0 := by simp [pvSizeL] at hf; omega
      have h4 : 2 * pvSizeL rest + 5 < g0 := by simp [pvSizeL] at hg; omega
      simp only [itemChildrenF]
      rw [(IH f0 (by omega)).1 g0 (PyVal.list (PyList.cons x PyList.nil)) ind pre h1 h2,
        (IH f0 (by omega)).2.2.2.2 g0 rest ind pre h3 h4]

/-- Fuel-irrelevance specialized to the wrapper: any sufficient fuel
computes `process_content_nodes`. -/
theorem processNodesF_eq (f : Nat) (v : PyVal) (ind : Nat) (pre : String)
    (h : 2 * pvSize v < f) :
    processNodesF f v ind pre = process_content_nodes v ind pre :=
  (fuel_irrel f).1 (2 * pvSize v + 1) v ind pre h (by omega)

/-- Joining the `result` entries with newlines (src/server.py line
194), lifted over exceptions. -/
def joinEntries : Except PyErr (List String) → Except PyErr String
  | .ok rs => .ok (pyJoin "\n" rs)
  | .error e => .error e

/-- Rendering a one-node list: the joined entries of that node at a
canonical fuel.  This is the bridge from documents to per-node facts. -/
theorem process_single (x : PyVal) (ind : Nat) (pre : String) :
    process_content_nodes (PyVal.list (PyList.cons x PyList.nil)) ind pre =
      joinEntries (nodeF (2 * pvSize x + 1) x ind pre) := by
  have hsz : pvSize (PyVal.list (PyList.cons x PyList.nil)) = pvSize x + 3 := by
    simp [pvSize, pvSizeL]
    omega
  unfold process_content_nodes
  rw [hsz]
  have h7 : 2 * (pvSize x + 3) + 1 = (2 * pvSize x + 6) + 1 := by omega
  rw [h7]
  simp only [processNodesF, pyTruthy]
  have h6 : (2 * pvSize x + 6 : Nat) = (2 * pvSize x + 5) + 1 := by omega
  rw [h6]
  simp only [nodeListF]
  have hn : nodeF (2 * pvSize x + 5) x ind pre = nodeF (2 * pvSize x + 1) x ind pre :=
    (fuel_irrel (2 * pvSize x + 5)).2.2.1 (2 * pvSize x + 1) x ind pre (by omega) (by omega)
  rw [hn]
  cases h : nodeF (2 * pvSize x + 1) x ind pre with
  | ok rs => simp [h, joinEntries]
  | error e => simp [h, joinEntries]

/-! ### Concrete document shapes used by the claims -/

/-- A plain text node `{"type": "text", "text": t}`. -/
def textNode (t : String) : PyVal :=
  .ofDict [("type", .str "text"), ("text", .str t)]

/-- A paragraph node with the given children. -/
def paraNode (xs : List PyVal) : PyVal :=
  .ofDict [("type", .str "paragraph"), ("content", .ofList xs)]

/-- A list item node with the given children. -/
def itemNode (xs : List PyVal) : PyVal :=
  .ofDict [("type", .str "listItem"), ("content", .ofList xs)]

/-- A bullet list node with the given `content` value. -/
def bulletOf (c : PyVal) : PyVal :=
  .dict (ofE [("type", .str "bulletList"), ("content", c)])

/-- An ordered list node with the given `content` value. -/
def orderedOf (c : PyVal) : PyVal :=
  .dict (ofE [("type", .str "orderedList"), ("content", c)])

/-- A heading node with the given `level` attribute value. -/
def headingNodeL (lv : PyVal) (xs : List PyVal) : PyVal :=
  .ofDict [("type", .str "heading"), ("attrs", .ofDict [("level", lv)]),
    ("content", .ofList xs)]

/-- A heading node without an `attrs` mapping. -/
def headingNodeNA (xs : List PyVal) : PyVal :=
  .ofDict [("type", .str "heading"), ("content", .ofList xs)]

/-- A text node with a single link mark `{"attrs": {"href": h}}`. -/
def linkTextNode (t h : String) : PyVal :=
  .ofDict [("type", .str "text"), ("text", .str t),
    ("marks", .ofList [.ofDict [("type", .str "link"),
      ("attrs", .ofDict [("href", .str h)])]])]

/-- A document root `{"content": [...]}`. -/
def docC (xs : List PyVal) : PyVal := .ofDict [("content", .ofList xs)]

/-! ### Claims -/

/-- C8: `extract_comment_text` maps `None` to the empty string and
returns every string input unchanged (src/server.py lines 88-93). -/
theorem c8_null_empty_string_passthrough :
    extract_comment_text PyVal.none = .ok "" ∧
    ∀ s : String, extract_comment_text (PyVal.str s) = .ok s :=
  ⟨rfl, fun _ => rfl⟩

/-- C9: the renderer is a pure function of its input: equal inputs give
equal outputs (the embedding threads no state whatsoever). -/
theorem c9_deterministic (v w : PyVal) (h : v = w) :
    extract_comment_text v = extract_comment_text w := by rw [h]

/-- C9 witness: rendering the same plain string twice gives the same
result both times. -/
theorem c9_deterministic_witness :
    extract_comment_text (PyVal.str "hi") = extract_comment_text (PyVal.str "hi") :=
  c9_deterministic (PyVal.str "hi") (PyVal.str "hi") rfl

/-- C4 counterexample: `extract_comment_text` has no `text`-key
fallback: a dict without `content` but with `text` falls through to
`str(...)`, yielding the Python repr of the whole dict, not the text
value. -/
theorem c4_text_fallback_counterexample :
    extract_comment_text (PyVal.ofDict [("text", PyVal.str "hi")]) =
      .ok "\x7b\x27text\x27: \x27hi\x27\x7d" ∧
    ¬ extract_comment_text (PyVal.ofDict [("text", PyVal.str "hi")]) = .ok "hi" := by
  refine ⟨rfl, fun h => ?_⟩
  rw [show extract_comment_text (PyVal.ofDict [("text", PyVal.str "hi")]) =
      .ok "\x7b\x27text\x27: \x27hi\x27\x7d" from rfl] at h
  exact absurd (Except.ok.inj h) (by decide)

/-- C4 amended: the `text`-key fallback belongs to
`get_description_text` (src/server.py lines 68-73), which returns the
raw `text` value of a dict without `content`; `extract_comment_text`
instead stringifies such a dict (lines 96-100). -/
theorem c4_text_fallback (es : PyEntries) (t : PyVal)
    (hnc : dlookup es "content" = Option.none)
    (ht : dlookup es "text" = Option.some t) :
    get_description_text (PyVal.dict es) = .ok t ∧
    extract_comment_text (PyVal.dict es) = .ok (pyStr (PyVal.dict es)) := by
  constructor
  · simp only [get_description_text, hnc, ht]
  · simp only [extract_comment_text, hnc]

/-- C4 witness: the amended fallback at the concrete dict
`{"text": "hi"}`. -/
theorem c4_text_fallback_witness :
    get_description_text (PyVal.dict (ofE [("text", PyVal.str "hi")])) =
      .ok (PyVal.str "hi") ∧
    extract_comment_text (PyVal.dict (ofE [("text", PyVal.str "hi")])) =
      .ok (pyStr (PyVal.dict (ofE [("text", PyVal.str "hi")]))) :=
  c4_text_fallback (ofE [("text", PyVal.str "hi")]) (PyVal.str "hi") rfl rfl

/-- The link-mark document with an empty href used against C5. -/
def clickEmptyHrefDoc : PyVal := docC [linkTextNode "click" ""]

/-- C5 counterexample: the code appends `" (href)"` whenever a link
mark has an `href` key, even when the href is the empty string — the
node renders as `"click ()"`, not `"click"` as the claim's
"non-empty href" condition would require. -/
theorem c5_empty_href_counterexample :
    extract_comment_text clickEmptyHrefDoc = .ok "click ()" ∧
    ¬ extract_comment_text clickEmptyHrefDoc = .ok "click" := by
  refine ⟨rfl, fun h => ?_⟩
  rw [show extract_comment_text clickEmptyHrefDoc = .ok "click ()" from rfl] at h
  exact absurd (Except.ok.inj h) (by decide)

/-- C5 amended: a text node with one link mark whose `attrs` contains
an `href` key renders as indent, then list prefix, then the text, with
`" (href)"` appended for the mark regardless of whether the href is
empty; in particular the `"click"`/`"http://x"` node renders to
`"click (http://x)"`, which contains both strings. -/
theorem c5_link_mark_append :
    (∀ (t h : String) (ind : Nat) (pre : String),
      process_content_nodes (PyVal.list (PyList.cons (linkTextNode t h) PyList.nil))
          ind pre =
        .ok (pyRepeat "  " ind ++ pre ++ (t ++ " (" ++ h ++ ")"))) ∧
    extract_comment_text (docC [linkTextNode "click" "http://x"]) =
      .ok "click (http://x)" ∧
    charsInfix "click".data "click (http://x)".data = true ∧
    charsInfix "http://x".data "click (http://x)".data = true :=
  ⟨fun _ _ _ _ => rfl, rfl, rfl, rfl⟩

/-- The heading-inside-a-bullet-list document used against C3. -/
def headingInListDoc : PyVal :=
  docC [bulletOf (.ofList [itemNode [headingNodeNA [textNode "T"]]])]

/-- C3 counterexample: a heading occurring at ambient indent level 1
renders as `"  # T"` — the heading line carries the ambient indent, so
headings are not "never indented". -/
theorem c3_heading_indent_counterexample :
    extract_comment_text headingInListDoc = .ok "  # T\n" ∧
    ¬ extract_comment_text headingInListDoc = .ok "# T\n" := by
  refine ⟨rfl, fun h => ?_⟩
  rw [show extract_comment_text headingInListDoc = .ok "  # T\n" from rfl] at h
  exact absurd (Except.ok.inj h) (by decide)

/-- C3 amended: a heading line is the ambient indent, then `"#" *
level` and a space, then the children rendered at indent 0 with empty
prefix, followed by a blank line; the level defaults to 1 only when
`attrs` or its `level` key is absent, and a non-integer level raises
`TypeError` instead of defaulting. -/
theorem c3_heading_line :
    (∀ (n : Int) (t : String) (ind : Nat) (pre : String),
      process_content_nodes
          (PyVal.list (PyList.cons (headingNodeL (.int n) [textNode t]) PyList.nil))
          ind pre =
        .ok (pyRepeat "  " ind ++ (pyRepeat "#" n.toNat ++ " ") ++ t ++ "\n")) ∧
    (∀ (t : String) (ind : Nat) (pre : String),
      process_content_nodes
          (PyVal.list (PyList.cons (headingNodeNA [textNode t]) PyList.nil))
          ind pre =
        .ok (pyRepeat "  " ind ++ "# " ++ t ++ "\n")) ∧
    extract_comment_text (docC [headingNodeL (.str "x") [textNode "T"]]) =
      .error .typeError := by
  refine ⟨fun n t ind pre => ?_, fun t ind pre => ?_, rfl⟩
  · have h : process_content_nodes
        (PyVal.list (PyList.cons (headingNodeL (.int n) [textNode t]) PyList.nil))
        ind pre =
        .ok (pyRepeat "  " ind ++ (pyRepeat "#" n.toNat ++ " ") ++ t ++ "\n" ++ "") := rfl
    rwa [String.append_empty] at h
  · have h : process_content_nodes
        (PyVal.list (PyList.cons (headingNodeNA [textNode t]) PyList.nil))
        ind pre =
        .ok (pyRepeat "  " ind ++ "# " ++ t ++ "\n" ++ "") := rfl
    rwa [String.append_empty] at h

/-- The nested bullet-list document used by C6: a bullet list whose
single item holds a paragraph and an inner bullet list. -/
def nestedBulletsDoc : PyVal :=
  docC [bulletOf (.ofList [itemNode
    [paraNode [textNode "outer"],
     bulletOf (.ofList [itemNode [paraNode [textNode "inner"]]])]])]

/-- The ordered list of two one-paragraph items used against C2. -/
def orderedTwoParaDoc : PyVal :=
  docC [orderedOf (.ofList [itemNode [paraNode [textNode "a"]],
    itemNode [paraNode [textNode "b"]]])]

/-- C2 counterexample: the two-item ordered list of text paragraphs
renders as `"  a\n\n  b\n"` — the texts appear in order and indented,
but the `"1. "`/`"2. "` prefixes are dropped, because the paragraph arm
recurses with an empty list prefix (src/server.py line 137). -/
theorem c2_ordered_prefix_counterexample :
    extract_comment_text orderedTwoParaDoc = .ok "  a\n\n  b\n" ∧
    charsInfix "1. ".data "  a\n\n  b\n".data = false ∧
    charsInfix "2. ".data "  a\n\n  b\n".data = false :=
  ⟨rfl, rfl, rfl⟩

/-- C6: entering a nested list increments the indent level by exactly
one: a bullet list with one item whose `content` is `ic` renders as
`ic` processed at `indentLevel + 1` with prefix `"• "`; consequently in
the concrete nested document the outer item text carries one two-space
unit and the inner item text carries two. -/
theorem c6_nested_list_indent :
    (∀ (ies : PyEntries) (ic : PyVal) (ind : Nat) (pre : String),
      dlookup ies "content" = Option.some ic →
      process_content_nodes
          (PyVal.list (PyList.cons
            (bulletOf (PyVal.list (PyList.cons (PyVal.dict ies) PyList.nil)))
            PyList.nil)) ind pre =
        process_content_nodes ic (ind + 1) "• ") ∧
    extract_comment_text nestedBulletsDoc = .ok "  outer\n\n    inner\n" := by
  refine ⟨fun ies ic ind pre hdl => ?_, rfl⟩
  rw [process_single]
  have hx : pvSize (bulletOf (PyVal.list (PyList.cons (PyVal.dict ies) PyList.nil)))
      = 13 + pvSizeE ies := by
    simp [bulletOf, pvSize, pvSizeL, pvSizeE, ofE]
    omega
  rw [hx]
  have h1 : 2 * (13 + pvSizeE ies) + 1 = (2 * pvSizeE ies + 26) + 1 := by omega
  rw [h1]
  show joinEntries (listItemsF (2 * pvSizeE ies + 26)
    (PyList.cons (PyVal.dict ies) PyList.nil) ind false 0) = _
  have h2 : 2 * pvSizeE ies + 26 = (2 * pvSizeE ies + 25) + 1 := by omega
  rw [h2]
  simp only [listItemsF]
  rw [hdl]
  have h3 := dlookup_pvSize hdl
  have h4 : processNodesF (2 * pvSizeE ies + 25) ic (ind + 1) "• " =
      process_content_nodes ic (ind + 1) "• " :=
    processNodesF_eq _ _ _ _ (by omega)
  dsimp only
  rw [show ordPrefix false 0 = "• " from rfl, h4]
  cases h5 : process_content_nodes ic (ind + 1) "• " with
  | ok s => simp [joinEntries, pyJoin]
  | error e => rfl

/-- C2 amended: each child of a two-item ordered list is processed at
`indentLevel + 1` with the 1-based ordinal prefix (`"1. "`, `"2. "`),
in input order, and the item results are joined; however, a paragraph
inside a list item recurses with an empty prefix (src/server.py line
137), so the concrete two-text-paragraph document renders as
`"  a\n\n  b\n"` without the ordinal prefixes. -/
theorem c2_ordered_prefix :
    (∀ (ies1 ies2 : PyEntries) (ic1 ic2 : PyVal) (ind : Nat) (pre : String),
      dlookup ies1 "content" = Option.some ic1 →
      dlookup ies2 "content" = Option.some ic2 →
      process_content_nodes
          (PyVal.list (PyList.cons
            (orderedOf (PyVal.list (PyList.cons (PyVal.dict ies1)
              (PyList.cons (PyVal.dict ies2) PyList.nil)))) PyList.nil)) ind pre =
        joinEntries (
          match process_content_nodes ic1 (ind + 1) "1. " with
          | .error e => .error e
          | .ok s1 =>
            match process_content_nodes ic2 (ind + 1) "2. " with
            | .error e => .error e
            | .ok s2 => .ok [s1, s2])) ∧
    extract_comment_text orderedTwoParaDoc = .ok "  a\n\n  b\n" := by
  refine ⟨fun ies1 ies2 ic1 ic2 ind pre hdl1 hdl2 => ?_, rfl⟩
  rw [process_single]
  have hx : pvSize (orderedOf (PyVal.list (PyList.cons (PyVal.dict ies1)
      (PyList.cons (PyVal.dict ies2) PyList.nil))))
      = 15 + pvSizeE ies1 + pvSizeE ies2 := by
    simp [orderedOf, pvSize, pvSizeL, pvSizeE, ofE]
    omega
  rw [hx]
  have h1 : 2 * (15 + pvSizeE ies1 + pvSizeE ies2) + 1 =
      (2 * pvSizeE ies1 + 2 * pvSizeE ies2 + 30) + 1 := by omega
  rw [h1]
  show joinEntries (listItemsF (2 * pvSizeE ies1 + 2 * pvSizeE ies2 + 30)
    (PyList.cons (PyVal.dict ies1) (PyList.cons (PyVal.dict ies2) PyList.nil))
    ind true 0) = _
  have h2 : 2 * pvSizeE ies1 + 2 * pvSizeE ies2 + 30 =
      (2 * pvSizeE ies1 + 2 * pvSizeE ies2 + 29) + 1 := by omega
  rw [h2]
  simp only [listItemsF]
  rw [hdl1, hdl2]
  have h3a := dlookup_pvSize hdl1
  have h3b := dlookup_pvSize hdl2
  dsimp only
  rw [show ordPrefix true 0 = "1. " from rfl,
    show ordPrefix true (0 + 1) = "2. " from rfl,
    processNodesF_eq _ ic1 (ind + 1) "1. " (by omega),
    processNodesF_eq _ ic2 (ind + 1) "2. " (by omega)]
  cases hc1 : process_content_nodes ic1 (ind + 1) "1. " with
  | error e => rfl
  | ok s1 =>
    cases hc2 : process_content_nodes ic2 (ind + 1) "2. " with
    | error e => rfl
    | ok s2 => rfl

/-- The node types the dispatch of `_process_content_nodes` recognizes
(src/server.py lines 125-186). -/
def recognizedTy (v : PyVal) : Bool :=
  v.eqStr "text" || v.eqStr "paragraph" || v.eqStr "heading" ||
  v.eqStr "bulletList" || v.eqStr "orderedList" || v.eqStr "listItem" ||
  v.eqStr "codeBlock" || v.eqStr "rule" || v.eqStr "mention" ||
  v.eqStr "hardBreak"

/-- C7: a node of unrecognized type with a `content` value is rendered
by recursing into that value at the same indent and prefix, so an
unknown wrapper around a text node still surfaces the text; an
unrecognized node without `content` contributes nothing and raises
nothing. -/
theorem c7_unknown_node :
    (∀ (es : PyEntries) (c : PyVal) (ind : Nat) (pre : String),
      recognizedTy ((dlookup es "type").getD (.str "")) = false →
      dlookup es "content" = Option.some c →
      process_content_nodes
          (PyVal.list (PyList.cons (PyVal.dict es) PyList.nil)) ind pre =
        process_content_nodes c ind pre) ∧
    (∀ (es : PyEntries) (ind : Nat) (pre : String),
      recognizedTy ((dlookup es "type").getD (.str "")) = false →
      dlookup es "content" = Option.none →
      process_content_nodes
          (PyVal.list (PyList.cons (PyVal.dict es) PyList.nil)) ind pre = .ok "") ∧
    extract_comment_text (docC [PyVal.ofDict [("type", .str "panel"),
      ("content", .ofList [textNode "inside"])]]) = .ok "inside" ∧
    extract_comment_text (docC [PyVal.ofDict [("type", .str "panel")]]) = .ok "" := by
  have main : ∀ (es : PyEntries) (ind : Nat) (pre : String),
      recognizedTy ((dlookup es "type").getD (.str "")) = false →
      process_content_nodes
          (PyVal.list (PyList.cons (PyVal.dict es) PyList.nil)) ind pre =
        joinEntries (match dlookup es "content" with
          | Option.some c =>
            match process_content_nodes c ind pre with
            | .ok s => .ok [s]
            | .error e => .error e
          | Option.none => .ok []) := by
    intro es ind pre hrec
    rw [process_single]
    rw [show pvSize (PyVal.dict es) = 1 + pvSizeE es from rfl]
    rw [show 2 * (1 + pvSizeE es) + 1 = (2 * pvSizeE es + 2) + 1 from by omega]
    simp only [recognizedTy, Bool.or_eq_false_iff] at hrec
    obtain ⟨⟨⟨⟨⟨⟨⟨⟨⟨ht1, ht2⟩, ht3⟩, ht4⟩, ht5⟩, ht6⟩, ht7⟩, ht8⟩, ht9⟩, ht10⟩ := hrec
    simp only [nodeF, ht1, ht2, ht3, ht4, ht5, ht6, ht7, ht8, ht9, ht10,
      Bool.false_eq_true, if_false]
    cases hdl : dlookup es "content" with
    | some c =>
      have hb := dlookup_pvSize hdl
      dsimp only
      rw [processNodesF_eq _ c ind pre (by omega)]
    | none => rfl
  refine ⟨fun es c ind pre hrec hdl => ?_, fun es ind pre hrec hdl => ?_, rfl, rfl⟩
  · rw [main es ind pre hrec, hdl]
    cases hc : process_content_nodes c ind pre with
    | ok s => simp [hc, joinEntries, pyJoin]
    | error e => simp [hc, joinEntries]
  · rw [main es ind pre hrec, hdl]
    simp [joinEntries, pyJoin]

/-- C7 witness: a concrete unknown-type node (`"panel"`) wrapping one
text node renders exactly as its content does, and a concrete unknown
leaf contributes nothing. -/
theorem c7_unknown_node_witness :
    process_content_nodes
        (PyVal.list (PyList.cons (PyVal.dict (ofE [("type", PyVal.str "panel"),
          ("content", PyVal.ofList [textNode "inside"])])) PyList.nil)) 0 "" =
      process_content_nodes (PyVal.ofList [textNode "inside"]) 0 "" ∧
    process_content_nodes
        (PyVal.list (PyList.cons (PyVal.dict (ofE [("type", PyVal.str "panel")]))
          PyList.nil)) 0 "" = .ok "" :=
  ⟨c7_unknown_node.1 (ofE [("type", PyVal.str "panel"),
      ("content", PyVal.ofList [textNode "inside"])])
      (PyVal.ofList [textNode "inside"]) 0 "" rfl rfl,
    c7_unknown_node.2.1 (ofE [("type", PyVal.str "panel")]) 0 "" rfl rfl⟩

/-- C2 witness: the two-item ordered-list equation at concrete items
(each item holding a bare text node, which keeps the prefix). -/
theorem c2_ordered_prefix_witness :
    process_content_nodes
        (PyVal.list (PyList.cons
          (orderedOf (PyVal.list (PyList.cons
            (PyVal.dict (ofE [("content", PyVal.ofList [textNode "p"])]))
            (PyList.cons
              (PyVal.dict (ofE [("content", PyVal.ofList [textNode "q"])]))
              PyList.nil)))) PyList.nil)) 0 "" =
      joinEntries (
        match process_content_nodes (PyVal.ofList [textNode "p"]) (0 + 1) "1. " with
        | .error e => .error e
        | .ok s1 =>
          match process_content_nodes (PyVal.ofList [textNode "q"]) (0 + 1) "2. " with
          | .error e => .error e
          | .ok s2 => .ok [s1, s2]) :=
  c2_ordered_prefix.1 (ofE [("content", PyVal.ofList [textNode "p"])])
    (ofE [("content", PyVal.ofList [textNode "q"])])
    (PyVal.ofList [textNode "p"]) (PyVal.ofList [textNode "q"]) 0 "" rfl rfl

/-- C6 witness: the nested-list indent equation at a concrete item. -/
theorem c6_nested_list_indent_witness :
    process_content_nodes
        (PyVal.list (PyList.cons
          (bulletOf (PyVal.list (PyList.cons
            (PyVal.dict (ofE [("content", PyVal.ofList [textNode "x"])]))
            PyList.nil))) PyList.nil)) 0 "" =
      process_content_nodes (PyVal.ofList [textNode "x"]) (0 + 1) "• " :=
  c6_nested_list_indent.1 (ofE [("content", PyVal.ofList [textNode "x"])])
    (PyVal.ofList [textNode "x"]) 0 "" rfl

/-! ### Well-formed documents (for C1)

`_process_content_nodes` raises on malformed trees (`content` not a
list of dicts, non-dict marks, non-dict `attrs`, non-integer heading
levels, non-string `text` values under `"\n".join`).  The following
predicates carve out the documents on which it is total; they cover
every well-formed Atlassian-Document-Format tree. -/

/-- A usable link mark: a dict whose `attrs` value, when present, is a
dict (so that `"href" in mark["attrs"]` and the subscript work). -/
def MarkOk (mark : PyVal) : Prop :=
  ∃ mes, mark = PyVal.dict mes ∧
    ∀ a, dlookup mes "attrs" = Option.some a → ∃ aes, a = PyVal.dict aes

/-- All marks in the list are usable. -/
def MarksOk : PyList → Prop
  | .nil => True
  | .cons m ms => MarkOk m ∧ MarksOk ms

/-- A usable `marks` value: falsy (skipped) or a list of usable marks. -/
def MarksVal (m : PyVal) : Prop :=
  pyTruthy m = false ∨ ∃ ms, m = PyVal.list ms ∧ MarksOk ms

/-- A usable `attrs` value: a dict whose `level` entry, if any, is an
int or a bool (the operands Python accepts in `"#" * level`). -/
def AttrsOk (a : PyVal) : Prop :=
  ∃ aes, a = PyVal.dict aes ∧
    ∀ lv, dlookup aes "level" = Option.some lv →
      (∃ n, lv = PyVal.int n) ∨ (∃ b, lv = PyVal.bool b)

mutual
/-- A well-formed list of content nodes. -/
inductive WfList : PyList → Prop where
  | nil : WfList .nil
  | cons {x : PyVal} {xs : PyList} : WfNode x → WfList xs → WfList (.cons x xs)

/-- A well-formed content node: a dict whose `content` (if present) is
a well-formed list, whose `text` (if present) is a string, whose
`attrs` (if present) is a dict with int/bool `level`, and whose
`marks` (if present) is falsy or a list of usable marks. -/
inductive WfNode : PyVal → Prop where
  | dict (es : PyEntries)
      (hcshape : ∀ c, dlookup es "content" = Option.some c →
        ∃ xs, c = PyVal.list xs)
      (hcontent : ∀ xs, dlookup es "content" = Option.some (PyVal.list xs) →
        WfList xs)
      (htext : ∀ t, dlookup es "text" = Option.some t → ∃ s, t = PyVal.str s)
      (hattrs : ∀ a, dlookup es "attrs" = Option.some a → AttrsOk a)
      (hmarks : ∀ m, dlookup es "marks" = Option.some m → MarksVal m) :
      WfNode (.dict es)
end

/-- A well-formed `nodes` argument: falsy (rendered as `""`) or a
well-formed list. -/
def WfNodes (v : PyVal) : Prop :=
  pyTruthy v = false ∨ ∃ xs, v = PyVal.list xs ∧ WfList xs

/-- A well-formed comment body: whatever `content` value a dict input
carries must be a well-formed `nodes` argument.  Every non-dict input
and every dict without `content` is fine. -/
def WfComment (v : PyVal) : Prop :=
  ∀ es, v = PyVal.dict es → ∀ c, dlookup es "content" = Option.some c → WfNodes c

/-- A usable mark never makes `applyMark` raise. -/
theorem applyMark_total (mark : PyVal) (hm : MarkOk mark) (text : PyVal) :
    ∃ t2, applyMark text mark = .ok t2 := by
  obtain ⟨mes, rfl, hattrs⟩ := hm
  unfold applyMark
  simp only [pyGet, Except.bind, bind]
  by_cases hlink : (((dlookup mes "type").getD PyVal.none).eqStr "link") = true
  · simp only [hlink, if_true]
    simp only [pyContainsKey]
    cases ha : dlookup mes "attrs" with
    | none =>
      simp only [ha, Option.isSome_none, Bool.false_eq_true, if_false]
      exact ⟨text, rfl⟩
    | some a =>
      obtain ⟨aes, rfl⟩ := hattrs a ha
      simp only [ha, Option.isSome_some, if_true, pySubscript, pyContainsKey]
      cases hh : dlookup aes "href" with
      | none =>
        simp only [hh, Option.isSome_none, Bool.false_eq_true, if_false]
        exact ⟨text, rfl⟩
      | some hv =>
        simp only [hh, Option.isSome_some, if_true]
        exact ⟨_, rfl⟩
  · simp only [Bool.not_eq_true] at hlink
    simp only [hlink, Bool.false_eq_true, if_false]
    exact ⟨text, rfl⟩

/-- Usable marks never make the mark loop raise. -/
theorem applyMarks_total : ∀ (ms : PyList), MarksOk ms → ∀ (text : PyVal),
    ∃ t2, applyMarks text ms = .ok t2
  | .nil, _, text => ⟨text, rfl⟩
  | .cons m ms, hok, text => by
    obtain ⟨t1, h1⟩ := applyMark_total m hok.1 text
    obtain ⟨t2, h2⟩ := applyMarks_total ms hok.2 t1
    exact ⟨t2, by simp [applyMarks, Except.bind, bind, h1, h2]⟩

/-- In a well-formed list every node's `text` field is a string, so the
`codeBlock` comprehension collects strings. -/
theorem collectTexts_total : ∀ (xs : PyList), WfList xs →
    ∃ ss : List String, collectTexts (toL xs) = .ok (ss.map PyVal.str)
  | .nil, _ => ⟨[], rfl⟩
  | .cons x xs, hwf => by
    cases hwf with
    | cons hx hxs =>
      cases hx with
      | dict es hcshape hcontent htext hattrs hmarks =>
        obtain ⟨ss, hss⟩ := collectTexts_total xs hxs
        have hstr : ∃ s0, (dlookup es "text").getD (PyVal.str "") = PyVal.str s0 := by
          cases ht : dlookup es "text" with
          | none => exact ⟨"", rfl⟩
          | some t =>
            obtain ⟨s0, rfl⟩ := htext t ht
            exact ⟨s0, rfl⟩
        obtain ⟨s0, hs0⟩ := hstr
        refine ⟨s0 :: ss, ?_⟩
        simp only [collectTexts, toL, pyGet, Except.bind, bind, hs0, hss]
        rfl

/-- `allStrs` recovers the strings from a list of `str` values. -/
theorem allStrs_map (ss : List String) :
    pyJoinVals.allStrs (ss.map PyVal.str) = Option.some ss := by
  induction ss with
  | nil => rfl
  | cons a ss ih => simp [pyJoinVals.allStrs, ih]

/-- Totality of the fueled renderer on well-formed input: no branch
raises, by strong induction on the fuel (mirroring `fuel_irrel`). -/
theorem renderer_total : ∀ f : Nat,
    (∀ v ind pre, 2 * pvSize v < f → WfNodes v →
      ∃ s, processNodesF f v ind pre = .ok s) ∧
    (∀ xs ind pre, 2 * pvSizeL xs < f → WfList xs →
      ∃ rs, nodeListF f xs ind pre = .ok rs) ∧
    (∀ node ind pre, 2 * pvSize node < f → WfNode node →
      ∃ rs, nodeF f node ind pre = .ok rs) ∧
    (∀ items ind ordered i, 2 * pvSizeL items < f → WfList items →
      ∃ rs, listItemsF f items ind ordered i = .ok rs) ∧
    (∀ cs ind pre, 2 * pvSizeL cs + 5 < f → WfList cs →
      ∃ rs, itemChildrenF f cs ind pre = .ok rs) := by
  intro f
  induction f using Nat.strong_induction_on with
  | _ f IH =>
  refine ⟨?_, ?_, ?_, ?_, ?_⟩
  · -- processNodesF
    intro v ind pre hf hw
    obtain ⟨f0, rfl⟩ : ∃ f0, f = f0 + 1 := ⟨f - 1, by omega⟩
    rcases hw with hfalsy | ⟨xs, rfl, hwl⟩
    · refine ⟨"", ?_⟩
      simp only [processNodesF, hfalsy, Bool.false_eq_true, if_false]
    · cases xs with
      | nil => exact ⟨"", rfl⟩
      | cons x rest =>
        have hx : 2 * pvSizeL (PyList.cons x rest) < f0 := by
          simp only [pvSize] at hf; omega
        obtain ⟨rs, hrs⟩ := (IH f0 (by omega)).2.1 (PyList.cons x rest) ind pre hx hwl
        refine ⟨pyJoin "\n" rs, ?_⟩
        simp only [processNodesF, pyTruthy, if_true, hrs]
  · -- nodeListF
    intro xs ind pre hf hw
    obtain ⟨f0, rfl⟩ : ∃ f0, f = f0 + 1 := ⟨f - 1, by omega⟩
    cases xs with
    | nil => exact ⟨[], rfl⟩
    | cons x rest =>
      cases hw with
      | cons hx hrest =>
        have hb1 : 2 * pvSize x < f0 := by simp only [pvSizeL] at hf; omega
        have hb2 : 2 * pvSizeL rest < f0 := by simp only [pvSizeL] at hf; omega
        obtain ⟨rs1, h1⟩ := (IH f0 (by omega)).2.2.1 x ind pre hb1 hx
        obtain ⟨rs2, h2⟩ := (IH f0 (by omega)).2.1 rest ind pre hb2 hrest
        exact ⟨rs1 ++ rs2, by simp only [nodeListF, h1, h2]⟩
  · -- nodeF
    intro node ind pre hf hw
    obtain ⟨f0, rfl⟩ : ∃ f0, f = f0 + 1 := ⟨f - 1, by omega⟩
    cases hw with
    | dict es hcshape hcontent htext hattrs hmarks =>
    have hfe : 2 * (1 + pvSizeE es) < f0 + 1 := by
      simpa only [pvSize] using hf
    simp only [nodeF]
    by_cases h1 : ((dlookup es "type").getD (.str "")).eqStr "text" = true
    · -- text node
      simp only [h1, if_true]
      cases hdm : dlookup es "marks" with
      | none =>
        simp only [hdm, Option.getD_none, pyTruthy, Bool.false_eq_true, if_false]
        exact ⟨_, rfl⟩
      | some m =>
        rcases hmarks m hdm with hfalsy | ⟨ms, rfl, hok⟩
        · simp only [hdm, Option.getD_some, hfalsy, Bool.false_eq_true, if_false]
          exact ⟨_, rfl⟩
        · cases ms with
          | nil =>
            simp only [hdm, Option.getD_some, pyTruthy, Bool.false_eq_true, if_false]
            exact ⟨_, rfl⟩
          | cons m0 ms0 =>
            obtain ⟨t2, ht2⟩ := applyMarks_total _ hok ((dlookup es "text").getD (.str ""))
            simp only [hdm, Option.getD_some, pyTruthy, if_true, ht2]
            exact ⟨_, rfl⟩
    · simp only [Bool.not_eq_true] at h1
      simp only [h1, Bool.false_eq_true, if_false]
      by_cases h2 : ((dlookup es "type").getD (.str "")).eqStr "paragraph" = true
      · -- paragraph
        simp only [h2, if_true]
        cases hdc : dlookup es "content" with
        | none => exact ⟨[], rfl⟩
        | some c =>
          obtain ⟨xs, rfl⟩ := hcshape c hdc
          have hwl := hcontent xs hdc
          have hb := dlookup_pvSize hdc
          have hsz : pvSize (PyVal.list xs) = 1 + pvSizeL xs := rfl
          obtain ⟨s, hs⟩ := (IH f0 (by omega)).1 (PyVal.list xs) ind ""
            (by omega) (Or.inr ⟨xs, rfl, hwl⟩)
          simp only [hs]
          exact ⟨_, rfl⟩
      · simp only [Bool.not_eq_true] at h2
        simp only [h2, Bool.false_eq_true, if_false]
        by_cases h3 : ((dlookup es "type").getD (.str "")).eqStr "heading" = true
        · -- heading
          simp only [h3, if_true]
          have hcount : ∃ k, pyGet ((dlookup es "attrs").getD (.dict .nil))
              "level" (.int 1) = .ok k ∧ ∃ n, pyStrMulCount k = .ok n := by
            cases hda : dlookup es "attrs" with
            | none => exact ⟨.int 1, rfl, 1, rfl⟩
            | some a =>
              obtain ⟨aes, rfl, hlv⟩ := hattrs a hda
              refine ⟨(dlookup aes "level").getD (.int 1), rfl, ?_⟩
              cases hdl2 : dlookup aes "level" with
              | none => exact ⟨1, rfl⟩
              | some lv =>
                rcases hlv lv hdl2 with ⟨n, rfl⟩ | ⟨b, rfl⟩
                · exact ⟨n, rfl⟩
                · exact ⟨if b then 1 else 0, rfl⟩
          obtain ⟨k, hk, n, hn⟩ := hcount
          simp only [hk, hn]
          cases hdc : dlookup es "content" with
          | none => exact ⟨_, rfl⟩
          | some c =>
            obtain ⟨xs, rfl⟩ := hcshape c hdc
            have hwl := hcontent xs hdc
            have hb := dlookup_pvSize hdc
            have hsz : pvSize (PyVal.list xs) = 1 + pvSizeL xs := rfl
            obtain ⟨s, hs⟩ := (IH f0 (by omega)).1 (PyVal.list xs) 0 ""
              (by omega) (Or.inr ⟨xs, rfl, hwl⟩)
            simp only [hs]
            exact ⟨_, rfl⟩
        · simp only [Bool.not_eq_true] at h3
          simp only [h3, Bool.false_eq_true, if_false]
          by_cases h4 : ((dlookup es "type").getD (.str "")).eqStr "bulletList" = true
          · -- bulletList
            simp only [h4, if_true]
            cases hdc : dlookup es "content" with
            | none => exact ⟨[], rfl⟩
            | some c =>
              obtain ⟨xs, rfl⟩ := hcshape c hdc
              have hwl := hcontent xs hdc
              have hb := dlookup_pvSize hdc
              have hsz : pvSize (PyVal.list xs) = 1 + pvSizeL xs := rfl
              obtain ⟨rs, hrs⟩ := (IH f0 (by omega)).2.2.2.1 xs ind false 0
                (by omega) hwl
              simp only [hrs]
              exact ⟨_, rfl⟩
          · simp only [Bool.not_eq_true] at h4
            simp only [h4, Bool.false_eq_true, if_false]
            by_cases h5 : ((dlookup es "type").getD (.str "")).eqStr "orderedList" = true
            · -- orderedList
              simp only [h5, if_true]
              cases hdc : dlookup es "content" with
              | none => exact ⟨[], rfl⟩
              | some c =>
                obtain ⟨xs, rfl⟩ := hcshape c hdc
                have hwl := hcontent xs hdc
                have hb := dlookup_pvSize hdc
                have hsz : pvSize (PyVal.list xs) = 1 + pvSizeL xs := rfl
                obtain ⟨rs, hrs⟩ := (IH f0 (by omega)).2.2.2.1 xs ind true 0
                  (by omega) hwl
                simp only [hrs]
                exact ⟨_, rfl⟩
            · simp only [Bool.not_eq_true] at h5
              simp only [h5, Bool.false_eq_true, if_false]
              by_cases h6 : ((dlookup es "type").getD (.str "")).eqStr "listItem" = true
              · -- listItem
                simp only [h6, if_true]
                cases hdc : dlookup es "content" with
                | none => exact ⟨[], rfl⟩
                | some c =>
                  obtain ⟨xs, rfl⟩ := hcshape c hdc
                  have hwl := hcontent xs hdc
                  have hb := dlookup_pvSize hdc
                  have hsz : pvSize (PyVal.list xs) = 1 + pvSizeL xs := rfl
                  obtain ⟨rs, hrs⟩ := (IH f0 (by omega)).2.2.2.2 xs ind pre
                    (by omega) hwl
                  simp only [hrs]
                  exact ⟨_, rfl⟩
              · simp only [Bool.not_eq_true] at h6
                simp only [h6, Bool.false_eq_true, if_false]
                by_cases h7 : ((dlookup es "type").getD (.str "")).eqStr "codeBlock" = true
                · -- codeBlock
                  simp only [h7, if_true]
                  cases hdc : dlookup es "content" with
                  | none => exact ⟨_, rfl⟩
                  | some c =>
                    obtain ⟨xs, rfl⟩ := hcshape c hdc
                    have hwl := hcontent xs hdc
                    obtain ⟨ss, hss⟩ := collectTexts_total xs hwl
                    simp only [pyElems, hss, pyJoinVals, allStrs_map]
                    exact ⟨_, rfl⟩
                · simp only [Bool.not_eq_true] at h7
                  simp only [h7, Bool.false_eq_true, if_false]
                  by_cases h8 : ((dlookup es "type").getD (.str "")).eqStr "rule" = true
                  · simp only [h8, if_true]
                    exact ⟨_, rfl⟩
                  · simp only [Bool.not_eq_true] at h8
                    simp only [h8, Bool.false_eq_true, if_false]
                    by_cases h9 : ((dlookup es "type").getD (.str "")).eqStr "mention" = true
                    · -- mention
                      simp only [h9, if_true]
                      have hmt : ∃ k, pyGet ((dlookup es "attrs").getD (.dict .nil))
                          "text" (.str "@unknown") = .ok k := by
                        cases hda : dlookup es "attrs" with
                        | none => exact ⟨_, rfl⟩
                        | some a =>
                          obtain ⟨aes, rfl, _⟩ := hattrs a hda
                          exact ⟨_, rfl⟩
                      obtain ⟨k, hk⟩ := hmt
                      simp only [hk]
                      exact ⟨_, rfl⟩
                    · simp only [Bool.not_eq_true] at h9
                      simp only [h9, Bool.false_eq_true, if_false]
                      by_cases h10 : ((dlookup es "type").getD (.str "")).eqStr "hardBreak" = true
                      · simp only [h10, if_true]
                        exact ⟨_, rfl⟩
                      · simp only [Bool.not_eq_true] at h10
                        simp only [h10, Bool.false_eq_true, if_false]
                        -- unknown type
                        cases hdc : dlookup es "content" with
                        | none => exact ⟨[], rfl⟩
                        | some c =>
                          obtain ⟨xs, rfl⟩ := hcshape c hdc
                          have hwl := hcontent xs hdc
                          have hb := dlookup_pvSize hdc
                          have hsz : pvSize (PyVal.list xs) = 1 + pvSizeL xs := rfl
                          obtain ⟨s, hs⟩ := (IH f0 (by omega)).1 (PyVal.list xs) ind pre
                            (by omega) (Or.inr ⟨xs, rfl, hwl⟩)
                          simp only [hs]
                          exact ⟨_, rfl⟩
  · -- listItemsF
    intro items ind ordered i hf hw
    obtain ⟨f0, rfl⟩ : ∃ f0, f = f0 + 1 := ⟨f - 1, by omega⟩
    cases items with
    | nil => exact ⟨[], rfl⟩
    | cons item rest =>
      cases hw with
      | cons hitem hrest =>
        cases hitem with
        | dict ies hcshape hcontent htext hattrs hmarks =>
        have hfl : 2 * pvSizeL (PyList.cons (PyVal.dict ies) rest) < f0 + 1 := hf
        simp only [pvSizeL, pvSize] at hfl
        have hbr : 2 * pvSizeL rest < f0 := by omega
        obtain ⟨rs, hrs⟩ := (IH f0 (by omega)).2.2.2.1 rest ind ordered (i + 1) hbr hrest
        simp only [listItemsF]
        cases hdc : dlookup ies "content" with
        | none =>
          simp only [hrs]
          exact ⟨_, rfl⟩
        | some ic =>
          obtain ⟨xs, rfl⟩ := hcshape ic hdc
          have hwl := hcontent xs hdc
          have hb := dlookup_pvSize hdc
          have hsz : pvSize (PyVal.list xs) = 1 + pvSizeL xs := rfl
          obtain ⟨s, hs⟩ := (IH f0 (by omega)).1 (PyVal.list xs) (ind + 1)
            (ordPrefix ordered i) (by omega) (Or.inr ⟨xs, rfl, hwl⟩)
          simp only [hs, hrs]
          exact ⟨_, rfl⟩
  · -- itemChildrenF
    intro cs ind pre hf hw
    obtain ⟨f0, rfl⟩ : ∃ f0, f = f0 + 1 := ⟨f - 1, by omega⟩
    cases cs with
    | nil => exact ⟨[], rfl⟩
    | cons x rest =>
      cases hw with
      | cons hx hrest =>
        have hfl : 2 * pvSizeL (PyList.cons x rest) + 5 < f0 + 1 := hf
        simp only [pvSizeL] at hfl
        have hsz : pvSize (PyVal.list (PyList.cons x PyList.nil)) = pvSize x + 3 := by
          simp only [pvSize, pvSizeL]
          omega
        obtain ⟨s, hs⟩ := (IH f0 (by omega)).1 (PyVal.list (PyList.cons x PyList.nil))
          ind pre (by omega)
          (Or.inr ⟨PyList.cons x PyList.nil, rfl, WfList.cons hx WfList.nil⟩)
        obtain ⟨rs, hrs⟩ := (IH f0 (by omega)).2.2.2.2 rest ind pre (by omega) hrest
        simp only [itemChildrenF, hs, hrs]
        exact ⟨_, rfl⟩

/-- C1 counterexample: `extract_comment_text` is not total — a dict
whose `content` is the number 5 makes Python iterate a non-iterable,
raising `TypeError`, so no string is returned. -/
theorem c1_malformed_raises :
    extract_comment_text (PyVal.ofDict [("content", PyVal.int 5)]) =
      .error .typeError ∧
    ∀ s : String,
      ¬ extract_comment_text (PyVal.ofDict [("content", PyVal.int 5)]) = .ok s := by
  refine ⟨rfl, fun s h => ?_⟩
  rw [show extract_comment_text (PyVal.ofDict [("content", PyVal.int 5)]) =
      .error .typeError from rfl] at h
  exact Except.noConfusion h

/-- C1 amended: `extract_comment_text` returns a string and raises
nothing on every input that is `None`, a string, a number, a boolean, a
list, a dict without `content`, or a dict whose `content` value is a
well-formed node tree (`WfComment`); malformed `content` (a non-list,
non-dict nodes, non-dict marks or attrs, non-integer heading levels,
non-string text under a code block) raises instead. -/
theorem c1_renderer_total (v : PyVal) (h : WfComment v) :
    ∃ s, extract_comment_text v = .ok s := by
  cases v with
  | none => exact ⟨"", rfl⟩
  | str s => exact ⟨s, rfl⟩
  | bool b => exact ⟨_, rfl⟩
  | int n => exact ⟨_, rfl⟩
  | list xs => exact ⟨_, rfl⟩
  | dict es =>
    cases hdl : dlookup es "content" with
    | none =>
      refine ⟨pyStr (PyVal.dict es), ?_⟩
      simp only [extract_comment_text, hdl]
    | some c =>
      have hw := h es rfl c hdl
      obtain ⟨s, hs⟩ := (renderer_total (2 * pvSize c + 1)).1 c 0 "" (by omega) hw
      refine ⟨s, ?_⟩
      simp only [extract_comment_text, hdl]
      exact hs

/-- C1 witness: a concrete well-formed document renders to some
string via the totality theorem. -/
theorem c1_renderer_total_witness :
    ∃ s, extract_comment_text (docC [textNode "hi"]) = .ok s := by
  refine c1_renderer_total (docC [textNode "hi"]) ?_
  intro es heq c hdl
  injection (show PyVal.dict (ofE [("content", PyVal.ofList [textNode "hi"])]) =
    PyVal.dict es from heq) with h2
  subst h2
  have hc : c = PyVal.ofList [textNode "hi"] := (Option.some.inj hdl).symm
  subst hc
  refine Or.inr ⟨ofL [textNode "hi"], rfl, WfList.cons ?_ WfList.nil⟩
  refine WfNode.dict (ofE [("type", PyVal.str "text"), ("text", PyVal.str "hi")])
    (fun c h => by exact Option.noConfusion h)
    (fun xs h => by exact Option.noConfusion h)
    (fun t h => ⟨"hi", (Option.some.inj h).symm⟩)
    (fun a h => by exact Option.noConfusion h)
    (fun m h => by exact Option.noConfusion h)

/-! ### C10: the description extractor against its claimed behavior -/

/-- The `type` value of a node, as the code reads it
(`content_item.get("type")`, default `None`). -/
def nodeTy (v : PyVal) : PyVal :=
  match v with
  | .dict es => (dlookup es "type").getD .none
  | _ => .none

/-- The `text` value of a node (`text_node.get("text", "")`). -/
def nodeText (v : PyVal) : PyVal :=
  match v with
  | .dict es => (dlookup es "text").getD (.str "")
  | _ => .str ""

/-- The `content` children of a node, empty when absent or not a
list. -/
def nodeContent (v : PyVal) : PyList :=
  match v with
  | .dict es =>
    match (dlookup es "content").getD (.list .nil) with
    | .list xs => xs
    | _ => .nil
  | _ => .nil

/-- Modelled from the claim: the texts of the `text` nodes directly
inside a paragraph, in order. -/
def specParaTexts : PyList → List String
  | .nil => []
  | .cons tn rest =>
    if (nodeTy tn).eqStr "text" then pyStr (nodeText tn) :: specParaTexts rest
    else specParaTexts rest

/-- Modelled from the claim: the texts of text nodes inside paragraphs
directly inside one list item, each prefixed with `"• "`. -/
def specItemTexts : PyList → List String
  | .nil => []
  | .cons ic rest =>
    if (nodeTy ic).eqStr "paragraph" then
      (specParaTexts (nodeContent ic)).map (fun t => "• " ++ t) ++ specItemTexts rest
    else specItemTexts rest

/-- Modelled from the claim: the bullet-prefixed texts of all list
items of one top-level list node. -/
def specListTexts : PyList → List String
  | .nil => []
  | .cons it rest => specItemTexts (nodeContent it) ++ specListTexts rest

/-- Modelled from the claim: only top-level paragraph children and
top-level bulletList/orderedList children contribute (the latter with
`"• "` prefixes, whether bulleted or ordered); every other top-level
node type contributes nothing. -/
def specTopTexts : PyList → List String
  | .nil => []
  | .cons ci rest =>
    if (nodeTy ci).eqStr "paragraph" then
      specParaTexts (nodeContent ci) ++ specTopTexts rest
    else if (nodeTy ci).eqStr "bulletList" || (nodeTy ci).eqStr "orderedList" then
      specListTexts (nodeContent ci) ++ specTopTexts rest
    else specTopTexts rest

/-- Modelled from the claim: the extracted description is the newline
join of the contributed texts. -/
def descriptionSpec (xs : PyList) : String := pyJoin "\n" (specTopTexts xs)

/-- The `content` value of a well-formed node is a well-formed list
that agrees with `nodeContent`. -/
theorem wfNode_content {es : PyEntries} (h : WfNode (.dict es)) :
    ∃ ys, (dlookup es "content").getD (.list .nil) = PyVal.list ys ∧
      WfList ys ∧ nodeContent (.dict es) = ys := by
  cases h with
  | dict es hcshape hcontent htext hattrs hmarks =>
    cases hdc : dlookup es "content" with
    | none => exact ⟨.nil, rfl, WfList.nil, by simp [nodeContent, hdc]⟩
    | some c =>
      obtain ⟨xs, rfl⟩ := hcshape c hdc
      exact ⟨xs, rfl, hcontent xs hdc, by simp [nodeContent, hdc]⟩

/-- The `text` value of a well-formed node is a string agreeing with
`pyStr ∘ nodeText`. -/
theorem wfNode_text {es : PyEntries} (h : WfNode (.dict es)) :
    (dlookup es "text").getD (.str "") = PyVal.str (pyStr (nodeText (.dict es))) := by
  cases h with
  | dict es hcshape hcontent htext hattrs hmarks =>
    cases ht : dlookup es "text" with
    | none => simp [nodeText, ht, pyStr]
    | some t =>
      obtain ⟨s, rfl⟩ := htext t ht
      simp [nodeText, ht, pyStr]

/-- The paragraph text loop agrees with the claimed extraction. -/
theorem descParaTexts_spec : ∀ (tns : PyList), WfList tns →
    descParaTexts (toL tns) = .ok ((specParaTexts tns).map PyVal.str)
  | .nil, _ => rfl
  | .cons tn rest, hwf => by
    cases hwf with
    | cons htn hrest =>
      have ih := descParaTexts_spec rest hrest
      cases htn with
      | dict es hcshape hcontent htext hattrs hmarks =>
        have htv := wfNode_text (WfNode.dict es hcshape hcontent htext hattrs hmarks)
        by_cases hty : (nodeTy (PyVal.dict es)).eqStr "text" = true
        · simp only [toL, descParaTexts, pyGet, Except.bind, bind,
            show ((dlookup es "type").getD PyVal.none) = nodeTy (PyVal.dict es) from rfl,
            hty, if_true, htv, ih, specParaTexts, List.map]
          rfl
        · simp only [toL, descParaTexts, pyGet, Except.bind, bind,
            show ((dlookup es "type").getD PyVal.none) = nodeTy (PyVal.dict es) from rfl,
            hty, Bool.false_eq_true, if_false, ih, specParaTexts]
          try simp [hty]
          try rfl

/-- The bullet-prefixed text loop agrees with the claimed extraction. -/
theorem descItemTexts_spec : ∀ (tns : PyList), WfList tns →
    descItemTexts (toL tns) =
      .ok (((specParaTexts tns).map (fun t => "• " ++ t)).map PyVal.str)
  | .nil, _ => rfl
  | .cons tn rest, hwf => by
    cases hwf with
    | cons htn hrest =>
      have ih := descItemTexts_spec rest hrest
      cases htn with
      | dict es hcshape hcontent htext hattrs hmarks =>
        have htv := wfNode_text (WfNode.dict es hcshape hcontent htext hattrs hmarks)
        by_cases hty : (nodeTy (PyVal.dict es)).eqStr "text" = true
        · simp only [toL, descItemTexts, pyGet, Except.bind, bind,
            show ((dlookup es "type").getD PyVal.none) = nodeTy (PyVal.dict es) from rfl,
            hty, if_true, htv, ih, specParaTexts, List.map]
          rfl
        · simp only [toL, descItemTexts, pyGet, Except.bind, bind,
            show ((dlookup es "type").getD PyVal.none) = nodeTy (PyVal.dict es) from rfl,
            hty, Bool.false_eq_true, if_false, ih, specParaTexts]
          try simp [hty]
          try rfl

/-- The item-content loop agrees with the claimed extraction. -/
theorem descItemContents_spec : ∀ (ics : PyList), WfList ics →
    descItemContents (toL ics) = .ok ((specItemTexts ics).map PyVal.str)
  | .nil, _ => rfl
  | .cons ic rest, hwf => by
    cases hwf with
    | cons hic hrest =>
      have ih := descItemContents_spec rest hrest
      cases hic with
      | dict es hcshape hcontent htext hattrs hmarks =>
        obtain ⟨ys, hys, hwys, hnc⟩ :=
          wfNode_content (WfNode.dict es hcshape hcontent htext hattrs hmarks)
        by_cases hty : (nodeTy (PyVal.dict es)).eqStr "paragraph" = true
        · have hpar := descItemTexts_spec ys hwys
          simp only [toL, descItemContents, pyGet, Except.bind, bind,
            show ((dlookup es "type").getD PyVal.none) = nodeTy (PyVal.dict es) from rfl,
            hty, if_true, hys, pyElems, hpar, ih, specItemTexts, hnc]
          try simp [List.map_append]
          try rfl
        · simp only [toL, descItemContents, pyGet, Except.bind, bind,
            show ((dlookup es "type").getD PyVal.none) = nodeTy (PyVal.dict es) from rfl,
            hty, Bool.false_eq_true, if_false, ih, specItemTexts]
          try simp [hty]
          try rfl

/-- The list-item loop agrees with the claimed extraction. -/
theorem descListItems_spec : ∀ (its : PyList), WfList its →
    descListItems (toL its) = .ok ((specListTexts its).map PyVal.str)
  | .nil, _ => rfl
  | .cons it rest, hwf => by
    cases hwf with
    | cons hit hrest =>
      have ih := descListItems_spec rest hrest
      cases hit with
      | dict es hcshape hcontent htext hattrs hmarks =>
        obtain ⟨ys, hys, hwys, hnc⟩ :=
          wfNode_content (WfNode.dict es hcshape hcontent htext hattrs hmarks)
        have hics := descItemContents_spec ys hwys
        simp only [toL, descListItems, pyGet, Except.bind, bind, hys, pyElems,
          hics, ih, specListTexts, hnc]
        try simp [List.map_append]
        try rfl

/-- The top-level loop agrees with the claimed extraction. -/
theorem descTopItems_spec : ∀ (cis : PyList), WfList cis →
    descTopItems (toL cis) = .ok ((specTopTexts cis).map PyVal.str)
  | .nil, _ => rfl
  | .cons ci rest, hwf => by
    cases hwf with
    | cons hci hrest =>
      have ih := descTopItems_spec rest hrest
      cases hci with
      | dict es hcshape hcontent htext hattrs hmarks =>
        obtain ⟨ys, hys, hwys, hnc⟩ :=
          wfNode_content (WfNode.dict es hcshape hcontent htext hattrs hmarks)
        by_cases hty : (nodeTy (PyVal.dict es)).eqStr "paragraph" = true
        · have hpar := descParaTexts_spec ys hwys
          simp only [toL, descTopItems, pyGet, Except.bind, bind,
            show ((dlookup es "type").getD PyVal.none) = nodeTy (PyVal.dict es) from rfl,
            hty, if_true, hys, pyElems, hpar, ih, specTopTexts, hnc]
          try simp [List.map_append]
          try rfl
        · by_cases hty2 : ((nodeTy (PyVal.dict es)).eqStr "bulletList" ||
              (nodeTy (PyVal.dict es)).eqStr "orderedList") = true
          · have hlst := descListItems_spec ys hwys
            simp only [toL, descTopItems, pyGet, Except.bind, bind,
              show ((dlookup es "type").getD PyVal.none) = nodeTy (PyVal.dict es) from rfl,
              hty, Bool.false_eq_true, if_false, hty2, if_true, hys, pyElems,
              hlst, ih, specTopTexts, hnc]
            try simp [List.map_append]
            try rfl
          · simp only [toL, descTopItems, pyGet, Except.bind, bind,
              show ((dlookup es "type").getD PyVal.none) = nodeTy (PyVal.dict es) from rfl,
              hty, hty2, Bool.false_eq_true, if_false, ih, specTopTexts]
            try simp [hty, hty2]
            try rfl

/-- C10: on a well-formed `content` list, `get_description_text`
extracts exactly the texts the claim describes: text nodes directly
inside top-level paragraphs, and `"• "`-prefixed texts of paragraphs
directly inside items of top-level bullet/ordered lists, joined with
newlines; all other top-level node types and deeper nesting contribute
nothing. -/
theorem c10_description_extraction (es : PyEntries) (xs : PyList)
    (hdl : dlookup es "content" = Option.some (PyVal.list xs))
    (hwf : WfList xs) :
    get_description_text (PyVal.dict es) = .ok (.str (descriptionSpec xs)) := by
  have htop := descTopItems_spec xs hwf
  simp only [get_description_text, hdl, Except.bind, bind, pyElems, htop,
    pyJoinVals, allStrs_map, descriptionSpec]
  rfl

/-- C10 counterexample: the claim covers every dict with a `content`
key, but on `\x7b"content": 5\x7d` the loop of line 51 iterates a
non-iterable and `get_description_text` raises `TypeError` instead of
returning any newline join. -/
theorem c10_description_counterexample :
    get_description_text (PyVal.ofDict [("content", PyVal.int 5)]) =
      .error .typeError ∧
    ∀ v : PyVal,
      ¬ get_description_text (PyVal.ofDict [("content", PyVal.int 5)]) = .ok v := by
  refine ⟨rfl, fun v h => ?_⟩
  rw [show get_description_text (PyVal.ofDict [("content", PyVal.int 5)]) =
      .error .typeError from rfl] at h
  exact Except.noConfusion h

/-- A plain text node is well-formed. -/
theorem wf_textNode (t : String) : WfNode (textNode t) :=
  WfNode.dict (ofE [("type", PyVal.str "text"), ("text", PyVal.str t)])
    (fun _ h => by exact Option.noConfusion h)
    (fun _ h => by exact Option.noConfusion h)
    (fun _ h => ⟨t, by exact (Option.some.inj h).symm⟩)
    (fun _ h => by exact Option.noConfusion h)
    (fun _ h => by exact Option.noConfusion h)

/-- A node carrying only a `type` string and a `content` list of
well-formed children is well-formed. -/
theorem wf_contentNode (ty : String) (xs : List PyVal)
    (h : WfList (ofL xs)) :
    WfNode (PyVal.ofDict [("type", PyVal.str ty),
      ("content", PyVal.ofList xs)]) :=
  WfNode.dict (ofE [("type", PyVal.str ty), ("content", PyVal.ofList xs)])
    (fun _ hc => ⟨ofL xs, by exact (Option.some.inj hc).symm⟩)
    (fun _ hy => by
      injection Option.some.inj hy with h2
      exact h2 ▸ h)
    (fun _ ht => by exact Option.noConfusion ht)
    (fun _ ha => by exact Option.noConfusion ha)
    (fun _ hm => by exact Option.noConfusion hm)

/-- Witness for C10 at a concrete description whose content is a
text-bearing paragraph followed by a bullet list of one item: the
extractor returns the paragraph text and the bulleted item text joined
by a newline. -/
theorem c10_description_extraction_witness :
    get_description_text (docC [paraNode [textNode "hi"],
        bulletOf (PyVal.ofList [itemNode [paraNode [textNode "pt"]]])]) =
      Except.ok (PyVal.str ("hi" ++ "\n" ++ "• pt")) := by
  have hw : WfList (ofL [paraNode [textNode "hi"],
      bulletOf (PyVal.ofList [itemNode [paraNode [textNode "pt"]]])]) :=
    WfList.cons (wf_contentNode "paragraph" [textNode "hi"]
        (WfList.cons (wf_textNode "hi") WfList.nil))
      (WfList.cons
        (wf_contentNode "bulletList" [itemNode [paraNode [textNode "pt"]]]
          (WfList.cons
            (wf_contentNode "listItem" [paraNode [textNode "pt"]]
              (WfList.cons
                (wf_contentNode "paragraph" [textNode "pt"]
                  (WfList.cons (wf_textNode "pt") WfList.nil))
                WfList.nil))
            WfList.nil))
        WfList.nil)
  have h := c10_description_extraction
    (ofE [("content", PyVal.ofList [paraNode [textNode "hi"],
        bulletOf (PyVal.ofList [itemNode [paraNode [textNode "pt"]]])])])
    (ofL [paraNode [textNode "hi"],
        bulletOf (PyVal.ofList [itemNode [paraNode [textNode "pt"]]])])
    rfl hw
  exact h.trans (by rfl)

end JiraMcp
